import Mathlib

/-!
  # Debate turn-state machine of `app.py`

  A shallow embedding of the debate driver in `src/app.py`: a two-persona
  AI debate advanced one generated turn per re-render. The state is the
  Streamlit session state (`chat_history`, `is_debating`,
  `debate_finished`, `topic`, per-persona config, `max_rounds`,
  `current_round_start`); each user interaction or auto-step of
  `page_debate`, `page_persona` and `page_settings` becomes an `Action`,
  and `tr` is the resulting state transition. The external Gemini call
  (`model.generate_content`) is modelled by an oracle
  `String → String → Option String` taking the model label and the full
  prompt; `none` models the call (or the preceding model lookup) raising,
  which `generate_response` catches and maps to the fixed sentinel string.
-/

namespace GeminiTalk

/-- The `role` key of a chat-history entry: `"user"` or `"assistant"`. -/
inductive Role where
  | user
  | assistant
deriving DecidableEq, BEq

/-- One entry of `st.session_state.chat_history`: a dict with keys
`role`, `name`, `content`. Every append in `app.py` supplies all three
keys, so `name` is total here (the `msg.get("name", msg["role"])`
fallback in `generate_response` is dead for app-created turns). -/
structure Turn where
  role : Role
  name : String
  content : String
deriving DecidableEq

/-- Per-persona configuration: display name, system prompt text, model label. -/
structure PersonaConfig where
  name : String
  text : String
  model : String
deriving DecidableEq

/-- The session state of `app.py` (the `defaults` dict, minus the purely
presentational `page` key, which only routes rendering). -/
structure AppState where
  chat_history : List Turn
  is_debating : Bool
  debate_finished : Bool
  topic : String
  persona_a : PersonaConfig
  persona_b : PersonaConfig
  max_rounds : Nat
  current_round_start : Nat
deriving DecidableEq

/-- Constant `DEFAULT_MODEL_LABEL` in `app.py`. -/
def DEFAULT_MODEL_LABEL : String := "Gemini 2.5 Flash"

/-- Constant `DEFAULT_PERSONA_A` in `app.py`. -/
def DEFAULT_PERSONA_A : String :=
  "あなたは冷徹な論理学者です。\n感情や宗教的観念を排し、事実、統計、論理的整合性のみを重視して議論します。\n相手の曖昧な定義や非科学的な主張を鋭く指摘してください。\n口調は断定的で、理知的です。"

/-- Constant `DEFAULT_PERSONA_B` in `app.py`. -/
def DEFAULT_PERSONA_B : String :=
  "あなたは慈悲深いテーラワーダ仏教の長老です。\n論理を超えた心の平安、執着の手放し、無常、苦（ドゥッカ）の解決を重視して議論します。\n相手の攻撃的な論理を柔和に受け流し、真理へと導くように諭してください。\n口調は穏やかで、落ち着いています。"

/-- The two persona slots (AI-A and AI-B). -/
inductive Slot where
  | A
  | B
deriving DecidableEq

/-- Built-in defaults for a slot, as in `defaults` / `page_persona`. -/
def defaultPersona : Slot → PersonaConfig
  | .A => ⟨"論理学者", DEFAULT_PERSONA_A, DEFAULT_MODEL_LABEL⟩
  | .B => ⟨"長老", DEFAULT_PERSONA_B, DEFAULT_MODEL_LABEL⟩

/-- The initial session state (`defaults` dict in `app.py`). -/
def init : AppState :=
  { chat_history := []
    is_debating := false
    debate_finished := false
    topic := ""
    persona_a := defaultPersona .A
    persona_b := defaultPersona .B
    max_rounds := 3
    current_round_start := 0 }

/-- The context window `history[-6:]`: the last 6 turns, or all of them
when the transcript is shorter (Python slice semantics; `Nat` subtraction
truncates at 0 exactly as the slice clamps). -/
def context_window (history : List Turn) : List Turn :=
  history.drop (history.length - 6)

/-- One rendered line of the context: `f"{name}: {msg['content']}"`. -/
def render_turn (m : Turn) : String := m.name ++ ": " ++ m.content

/-- The `context_str` accumulation loop in `generate_response`. -/
def context_str (history : List Turn) : String :=
  (context_window history).foldl (fun acc m => acc ++ render_turn m ++ "\n") ""

/-- The `full_prompt` f-string of `generate_response` (persona text,
rendered context, instruction, last utterance). -/
def full_prompt (persona : String) (history : List Turn) (prompt_text : String) : String :=
  "\n        " ++ persona ++ "\n        \n        これまでの議論の流れ:\n        "
    ++ context_str history
    ++ "\n        \n        相手の直前の発言（あるいはテーマ）に対して、あなたの立場から短く簡潔（150文字程度）に反論または意見を述べてください。\n        直前の発言: "
    ++ prompt_text ++ "\n        "

/-- The fixed sentinel returned when generation fails. -/
def sentinelText : String := "（思考が中断されました）"

/-- Function `generate_response` in `app.py`: builds the full prompt and calls the
backend (the oracle, given the model label and the prompt); any exception
inside the `try` block — the model lookup or the generation call — is the
oracle returning `none`, mapped to the sentinel string. -/
def generate_response (persona model_label : String) (history : List Turn)
    (prompt_text : String) (oracle : String → String → Option String) : String :=
  match oracle model_label (full_prompt persona history prompt_text) with
  | some t => t
  | none => sentinelText

/-- The quantity `turns_since_start = len(chat_history) - 1 - current_round_start`
(Python int arithmetic, hence `Int` here). -/
def turns_since_start (s : AppState) : Int :=
  (s.chat_history.length : Int) - 1 - (s.current_round_start : Int)

/-- The round budget `max_turns = max_rounds * 2`. -/
def max_turns (s : AppState) : Int := (s.max_rounds : Int) * 2

/-- The count `ai_turn_count`: the number of `role == "assistant"` entries in the
whole `chat_history` (the speaker-selection count in `page_debate`). -/
def assistantCount (h : List Turn) : Nat :=
  (h.filter (fun m => m.role == Role.assistant)).length

/-- The persona name generating the next turn (`page_debate` parity branch:
A when `ai_turn_count` is even, B when odd). -/
def speakerName (s : AppState) : String :=
  if assistantCount s.chat_history % 2 = 0 then s.persona_a.name else s.persona_b.name

/-- The persona prompt text for the next turn (same parity branch). -/
def speakerPersona (s : AppState) : String :=
  if assistantCount s.chat_history % 2 = 0 then s.persona_a.text else s.persona_b.text

/-- The model label for the next turn (same parity branch). -/
def speakerModel (s : AppState) : String :=
  if assistantCount s.chat_history % 2 = 0 then s.persona_a.model else s.persona_b.model

/-- The prompt seed `last_content = chat_history[-1]["content"]`. In `app.py` this runs
only while debating, when the history is non-empty (proved below as an
invariant); the `getD` default stands in for the unreachable empty case. -/
def last_content (s : AppState) : String :=
  ((s.chat_history.getLast?).map Turn.content).getD ""

/-- User interactions and auto-steps of the app, each one re-render. -/
inductive Action where
  | submitTopic (topic : String)
  | step (oracle : String → String → Option String)
  | interrupt
  | resume (opinion : String)
  | newTopic
  | editPersona (slot : Slot) (name text model : String)
  | resetPersona (slot : Slot)
  | setMaxRounds (n : Nat)

/-- The topic form of `page_debate`: shown only when neither debating nor
finished; submission with a non-empty topic resets the history to the
single seed turn and enters Debating (`if submitted and user_topic`). -/
def doSubmitTopic (s : AppState) (t : String) : AppState :=
  if s.is_debating = false ∧ s.debate_finished = false ∧ t ≠ "" then
    { s with
      topic := t
      chat_history := [⟨Role.user, "観客", "テーマ: 「" ++ t ++ "」について議論してください。"⟩]
      is_debating := true
      debate_finished := false
      current_round_start := 0 }
  else s

/-- One pass of the auto-debate block of `page_debate`: while debating,
either generate and append the next assistant turn (when
`turns_since_start < max_turns`) or transition to Finished. -/
def doStep (s : AppState) (oracle : String → String → Option String) : AppState :=
  if s.is_debating = true then
    if turns_since_start s < max_turns s then
      { s with chat_history := s.chat_history ++
          [⟨Role.assistant, speakerName s,
            generate_response (speakerPersona s) (speakerModel s)
              s.chat_history (last_content s) oracle⟩] }
    else
      { s with is_debating := false, debate_finished := true }
  else s

/-- The stop button of `page_debate`, shown only while debating; checked
between completed steps. -/
def doInterrupt (s : AppState) : AppState :=
  if s.is_debating = true then
    { s with is_debating := false, debate_finished := true }
  else s

/-- The resume form of `page_debate` (shown when finished and not
debating): with a non-empty opinion, append a user turn and restart the
round counter at the appended turn (`if continue_debate and user_opinion`). -/
def doResume (s : AppState) (op : String) : AppState :=
  if s.debate_finished = true ∧ s.is_debating = false ∧ op ≠ "" then
    let h := s.chat_history ++ [⟨Role.user, "観客", op⟩]
    { s with chat_history := h
             current_round_start := h.length - 1
             is_debating := true
             debate_finished := false }
  else s

/-- The new-topic button of the same post-debate form: clear the
transcript and topic and return to Idle. -/
def doNewTopic (s : AppState) : AppState :=
  if s.debate_finished = true ∧ s.is_debating = false then
    { s with chat_history := []
             topic := ""
             debate_finished := false
             current_round_start := 0 }
  else s

/-- Saving the persona edit form of `page_persona` (free-form fields). -/
def doEditPersona (s : AppState) (slot : Slot) (n t m : String) : AppState :=
  match slot with
  | .A => { s with persona_a := ⟨n, t, m⟩ }
  | .B => { s with persona_b := ⟨n, t, m⟩ }

/-- The reset button of `page_persona`: restore built-in defaults. -/
def doResetPersona (s : AppState) (slot : Slot) : AppState :=
  match slot with
  | .A => { s with persona_a := defaultPersona .A }
  | .B => { s with persona_b := defaultPersona .B }

/-- The rounds slider of `page_settings` (range 1..10). -/
def doSetMaxRounds (s : AppState) (n : Nat) : AppState :=
  if 1 ≤ n ∧ n ≤ 10 then { s with max_rounds := n } else s

/-- The transition function: one user interaction or auto-step. -/
def tr (s : AppState) : Action → AppState
  | .submitTopic t => doSubmitTopic s t
  | .step oracle => doStep s oracle
  | .interrupt => doInterrupt s
  | .resume op => doResume s op
  | .newTopic => doNewTopic s
  | .editPersona slot n t m => doEditPersona s slot n t m
  | .resetPersona slot => doResetPersona s slot
  | .setMaxRounds n => doSetMaxRounds s n

/-- Running a sequence of actions from a state. -/
def run (s : AppState) (acts : List Action) : AppState :=
  acts.foldl tr s

/-- The scheduler contract of the spec (`next_speaker`): `none` when not
debating or when the round budget is exhausted, otherwise the slot chosen
by the parity branch of `page_debate`. -/
def next_slot (s : AppState) : Option Slot :=
  if s.is_debating = true then
    if turns_since_start s < max_turns s then
      some (if assistantCount s.chat_history % 2 = 0 then .A else .B)
    else none
  else none

theorem run_nil (s : AppState) : run s [] = s := rfl

theorem run_cons (s : AppState) (a : Action) (l : List Action) :
    run s (a :: l) = run (tr s a) l := rfl

/-- The transcript after the round-start marker: a user seed turn (the
topic statement or an interjected opinion) followed by assistant turns
only. -/
def RoundShape (s : AppState) : Prop :=
  ∃ pre seed rest, s.chat_history = pre ++ seed :: rest ∧
    pre.length = s.current_round_start ∧ seed.role = Role.user ∧
    ∀ t ∈ rest, t.role = Role.assistant

/-- The inductive invariant of the session state: the two lifecycle flags
are mutually exclusive, a debate in progress has a non-empty transcript,
and a non-empty transcript has the round shape. -/
def Inv (s : AppState) : Prop :=
  (s.is_debating = true → s.debate_finished = false) ∧
  (s.is_debating = true → s.chat_history ≠ []) ∧
  (s.chat_history = [] ∨ RoundShape s)

theorem inv_init : Inv init := by
  refine ⟨?_, ?_, Or.inl rfl⟩ <;> intro h <;> simp [init] at h

theorem inv_doSubmitTopic (s : AppState) (t : String) (h : Inv s) :
    Inv (doSubmitTopic s t) := by
  unfold doSubmitTopic
  split
  · refine ⟨fun _ => rfl, fun _ => by simp, Or.inr ?_⟩
    exact ⟨[], ⟨Role.user, "観客", "テーマ: 「" ++ t ++ "」について議論してください。"⟩, [],
      by simp, rfl, rfl, by simp⟩
  · exact h

theorem inv_doStep (s : AppState) (o : String → String → Option String)
    (h : Inv s) : Inv (doStep s o) := by
  obtain ⟨hex, hne, hsh⟩ := h
  unfold doStep
  split
  · rename_i hdeb
    split
    · refine ⟨fun _ => hex hdeb, fun _ => by simp, Or.inr ?_⟩
      rcases hsh with hnil | ⟨pre, seed, rest, hh, hlen, hrole, hall⟩
      · exact absurd hnil (hne hdeb)
      · refine ⟨pre, seed,
          rest ++ [⟨Role.assistant, speakerName s,
            generate_response (speakerPersona s) (speakerModel s)
              s.chat_history (last_content s) o⟩], ?_, hlen, hrole, ?_⟩
        · rw [hh]; simp
        · intro t ht
          rcases List.mem_append.mp ht with h1 | h2
          · exact hall t h1
          · simp only [List.mem_singleton] at h2
            subst h2; rfl
    · exact ⟨fun hc => by simp at hc, fun hc => by simp at hc, hsh⟩
  · exact ⟨hex, hne, hsh⟩

theorem inv_doInterrupt (s : AppState) (h : Inv s) : Inv (doInterrupt s) := by
  obtain ⟨hex, hne, hsh⟩ := h
  unfold doInterrupt
  split
  · exact ⟨fun hc => by simp at hc, fun hc => by simp at hc, hsh⟩
  · exact ⟨hex, hne, hsh⟩

theorem inv_doResume (s : AppState) (op : String) (h : Inv s) :
    Inv (doResume s op) := by
  obtain ⟨hex, hne, hsh⟩ := h
  unfold doResume
  split
  · refine ⟨fun _ => rfl, fun _ => by simp, Or.inr ?_⟩
    refine ⟨s.chat_history, ⟨Role.user, "観客", op⟩, [], by simp, ?_, rfl, by simp⟩
    simp
  · exact ⟨hex, hne, hsh⟩

theorem inv_doNewTopic (s : AppState) (h : Inv s) : Inv (doNewTopic s) := by
  obtain ⟨hex, hne, hsh⟩ := h
  unfold doNewTopic
  split
  · rename_i hg
    exact ⟨fun hc => absurd hc (by rw [hg.2]; simp), fun hc => absurd hc (by rw [hg.2]; simp),
      Or.inl rfl⟩
  · exact ⟨hex, hne, hsh⟩

theorem inv_doEditPersona (s : AppState) (slot : Slot) (n t m : String)
    (h : Inv s) : Inv (doEditPersona s slot n t m) := by
  cases slot <;> exact h

theorem inv_doResetPersona (s : AppState) (slot : Slot) (h : Inv s) :
    Inv (doResetPersona s slot) := by
  cases slot <;> exact h

theorem inv_doSetMaxRounds (s : AppState) (n : Nat) (h : Inv s) :
    Inv (doSetMaxRounds s n) := by
  unfold doSetMaxRounds
  split <;> exact h

theorem inv_tr (s : AppState) (a : Action) (h : Inv s) : Inv (tr s a) := by
  cases a with
  | submitTopic t => exact inv_doSubmitTopic s t h
  | step o => exact inv_doStep s o h
  | interrupt => exact inv_doInterrupt s h
  | resume op => exact inv_doResume s op h
  | newTopic => exact inv_doNewTopic s h
  | editPersona slot n t m => exact inv_doEditPersona s slot n t m h
  | resetPersona slot => exact inv_doResetPersona s slot h
  | setMaxRounds n => exact inv_doSetMaxRounds s n h

theorem inv_run (acts : List Action) (s : AppState) (h : Inv s) :
    Inv (run s acts) := by
  induction acts generalizing s with
  | nil => exact h
  | cons a l ih => exact ih (tr s a) (inv_tr s a h)

/-- Claim C8: in every reachable state, the flags `is_debating` and
`debate_finished` are never simultaneously true — exactly one lifecycle
state among Idle (both false), Debating, and Finished holds, and every
transition preserves this exclusivity. -/
theorem reachable_lifecycle_exclusive (acts : List Action)
    (h : (run init acts).is_debating = true) :
    (run init acts).debate_finished = false :=
  (inv_run acts init inv_init).1 h

theorem reachable_lifecycle_exclusive_witness :
    (run init [Action.submitTopic "T"]).is_debating = true ∧
      (run init [Action.submitTopic "T"]).debate_finished = false :=
  ⟨by decide, reachable_lifecycle_exclusive [Action.submitTopic "T"] (by decide)⟩

/-- Claim C9: in every reachable state with a non-empty transcript,
`current_round_start` is a valid index, the turn there has role `user`,
every later turn has role `assistant`, and therefore the round-budget
count `len - 1 - current_round_start` equals the number of assistant
turns since the round started. -/
theorem reachable_round_shape (acts : List Action)
    (hne : (run init acts).chat_history ≠ []) :
    (run init acts).current_round_start < (run init acts).chat_history.length ∧
    (∃ seed rest,
      (run init acts).chat_history.drop (run init acts).current_round_start = seed :: rest ∧
      seed.role = Role.user ∧ (∀ t ∈ rest, t.role = Role.assistant)) ∧
    assistantCount ((run init acts).chat_history.drop ((run init acts).current_round_start + 1)) =
      (run init acts).chat_history.length - 1 - (run init acts).current_round_start ∧
    turns_since_start (run init acts) =
      (((run init acts).chat_history.length - 1 - (run init acts).current_round_start : Nat) : Int) := by
  obtain ⟨-, -, hsh⟩ := inv_run acts init inv_init
  rcases hsh with hnil | ⟨pre, seed, rest, hh, hlen, hrole, hall⟩
  · exact absurd hnil hne
  have hlength : (run init acts).chat_history.length =
      (run init acts).current_round_start + 1 + rest.length := by
    rw [hh, ← hlen]; simp [List.length_append]; omega
  have hdrop : (run init acts).chat_history.drop (run init acts).current_round_start =
      seed :: rest := by
    rw [hh, ← hlen]; exact List.drop_left pre (seed :: rest)
  have hdrop1 : (run init acts).chat_history.drop ((run init acts).current_round_start + 1) =
      rest := by
    have : ((run init acts).chat_history.drop (run init acts).current_round_start).drop 1
        = rest := by rw [hdrop]; rfl
    rw [← this, List.drop_drop]
  refine ⟨by omega, ⟨seed, rest, hdrop, hrole, hall⟩, ?_, ?_⟩
  · rw [hdrop1]
    unfold assistantCount
    have : rest.filter (fun m => m.role == Role.assistant) = rest := by
      apply List.filter_eq_self.mpr
      intro a ha
      rw [hall a ha]; rfl
    rw [this]; omega
  · unfold turns_since_start; omega

theorem reachable_round_shape_witness :
    (run init [Action.submitTopic "T"]).chat_history ≠ [] ∧
    (run init [Action.submitTopic "T"]).current_round_start <
      (run init [Action.submitTopic "T"]).chat_history.length :=
  ⟨by decide, (reachable_round_shape [Action.submitTopic "T"] (by decide)).1⟩

theorem assistantCount_append (l₁ l₂ : List Turn) :
    assistantCount (l₁ ++ l₂) = assistantCount l₁ + assistantCount l₂ := by
  unfold assistantCount
  rw [List.filter_append, List.length_append]

theorem next_slot_pos (s : AppState) (hdeb : s.is_debating = true)
    (hbud : turns_since_start s < max_turns s) :
    next_slot s = some (if assistantCount s.chat_history % 2 = 0 then Slot.A else Slot.B) := by
  unfold next_slot
  rw [if_pos hdeb, if_pos hbud]

/-- While the round budget is not exhausted, each auto-step appends exactly
one assistant turn and stays in Debating; by induction over a list of
oracles, a block of `os.length` steps appends `os.length` assistant turns
(provided the budget `2 * max_rounds` is not exceeded). -/
theorem debate_steps_append (os : List (String → String → Option String)) :
    ∀ (s : AppState) (k : Nat), s.is_debating = true →
    s.chat_history.length = s.current_round_start + 1 + k →
    k + os.length ≤ 2 * s.max_rounds →
    ∃ appended : List Turn,
      appended.length = os.length ∧
      (∀ t ∈ appended, t.role = Role.assistant) ∧
      run s (os.map Action.step) = { s with chat_history := s.chat_history ++ appended } := by
  induction os with
  | nil =>
    intro s k hdeb hlen hb
    exact ⟨[], rfl, by simp, by simp [run_nil]⟩
  | cons o os ih =>
    intro s k hdeb hlen hb
    simp only [List.length_cons] at hb
    have hbud : turns_since_start s < max_turns s := by
      unfold turns_since_start max_turns; omega
    have hstep : tr s (Action.step o) =
        { s with chat_history := s.chat_history ++
          [⟨Role.assistant, speakerName s,
            generate_response (speakerPersona s) (speakerModel s)
              s.chat_history (last_content s) o⟩] } := by
      show doStep s o = _
      unfold doStep
      rw [if_pos hdeb, if_pos hbud]
    obtain ⟨ap, hapl, hapr, hrun⟩ :=
      ih ({ s with chat_history := s.chat_history ++
          [⟨Role.assistant, speakerName s,
            generate_response (speakerPersona s) (speakerModel s)
              s.chat_history (last_content s) o⟩] }) (k + 1) hdeb
        (by simp [List.length_append]; omega) (by simpa using by omega)
    refine ⟨⟨Role.assistant, speakerName s,
        generate_response (speakerPersona s) (speakerModel s)
          s.chat_history (last_content s) o⟩ :: ap, by simp [hapl], ?_, ?_⟩
    · intro x hx
      rcases List.mem_cons.mp hx with h1 | h2
      · subst h1; rfl
      · exact hapr x h2
    · rw [List.map_cons, run_cons, hstep, hrun]
      simp

/-- Claim C2: from any round start (Debating, transcript length =
`current_round_start + 1`) with `max_rounds` fixed at its current value
`R` (auto-steps never change it), running `n ≤ 2R` steps with no
interrupt appends exactly `n` assistant turns and stays in Debating with
the assistant-turn count since `round_start_index` equal to `n` (hence
never exceeding `2R`); after exactly `2R` steps the next step transitions
to Finished without appending, so exactly `2R` assistant turns are
produced, counted from `round_start_index`. -/
theorem round_budget_exact (s : AppState)
    (os : List (String → String → Option String))
    (o : String → String → Option String)
    (hdeb : s.is_debating = true)
    (hstart : s.chat_history.length = s.current_round_start + 1)
    (hle : os.length ≤ 2 * s.max_rounds) :
    (∃ appended : List Turn,
      appended.length = os.length ∧
      (∀ t ∈ appended, t.role = Role.assistant) ∧
      run s (os.map Action.step) = { s with chat_history := s.chat_history ++ appended } ∧
      (run s (os.map Action.step)).is_debating = true ∧
      turns_since_start (run s (os.map Action.step)) = (os.length : Int) ∧
      turns_since_start (run s (os.map Action.step)) ≤ max_turns s) ∧
    (os.length = 2 * s.max_rounds →
      (tr (run s (os.map Action.step)) (Action.step o)).is_debating = false ∧
      (tr (run s (os.map Action.step)) (Action.step o)).debate_finished = true ∧
      (tr (run s (os.map Action.step)) (Action.step o)).chat_history =
        (run s (os.map Action.step)).chat_history ∧
      assistantCount ((tr (run s (os.map Action.step)) (Action.step o)).chat_history.drop
        (s.current_round_start + 1)) = os.length) := by
  obtain ⟨ap, hapl, hapr, hrun⟩ :=
    debate_steps_append os s 0 hdeb (by omega) (by omega)
  have hlen' : (run s (os.map Action.step)).chat_history.length =
      s.current_round_start + 1 + os.length := by
    rw [hrun]; simp [List.length_append]; omega
  have hrs' : (run s (os.map Action.step)).current_round_start = s.current_round_start := by
    rw [hrun]
  have hR' : (run s (os.map Action.step)).max_rounds = s.max_rounds := by
    rw [hrun]
  have hdeb' : (run s (os.map Action.step)).is_debating = true := by
    rw [hrun]; exact hdeb
  have hts : turns_since_start (run s (os.map Action.step)) = (os.length : Int) := by
    unfold turns_since_start; rw [hlen', hrs']; omega
  refine ⟨⟨ap, hapl, hapr, hrun, hdeb', hts, ?_⟩, ?_⟩
  · rw [hts]; unfold max_turns; omega
  · intro hfull
    have hnotlt : ¬ turns_since_start (run s (os.map Action.step)) <
        max_turns (run s (os.map Action.step)) := by
      rw [hts]; unfold max_turns; rw [hR']; omega
    have hterm : tr (run s (os.map Action.step)) (Action.step o) =
        { run s (os.map Action.step) with is_debating := false, debate_finished := true } := by
      show doStep _ o = _
      unfold doStep
      rw [if_pos hdeb', if_neg hnotlt]
    refine ⟨by rw [hterm], by rw [hterm], by rw [hterm], ?_⟩
    rw [hterm]
    show assistantCount ((run s (os.map Action.step)).chat_history.drop
      (s.current_round_start + 1)) = os.length
    rw [hrun]
    show assistantCount ((s.chat_history ++ ap).drop (s.current_round_start + 1)) = os.length
    rw [← hstart, List.drop_left]
    rw [← hapl]
    unfold assistantCount
    congr 1
    apply List.filter_eq_self.mpr
    intro a ha
    rw [hapr a ha]; rfl

theorem round_budget_exact_witness :
    ((run init [Action.submitTopic "T"]).is_debating = true ∧
     (run init [Action.submitTopic "T"]).chat_history.length =
       (run init [Action.submitTopic "T"]).current_round_start + 1 ∧
     (List.replicate 6 (fun _ _ => some "x" : String → String → Option String)).length ≤
       2 * (run init [Action.submitTopic "T"]).max_rounds) ∧
    (tr (run (run init [Action.submitTopic "T"])
          ((List.replicate 6 (fun _ _ => some "x" : String → String → Option String)).map
            Action.step))
        (Action.step (fun _ _ => some "x"))).debate_finished = true :=
  ⟨⟨by decide, by decide, by decide⟩,
   ((round_budget_exact (run init [Action.submitTopic "T"])
      (List.replicate 6 (fun _ _ => some "x")) (fun _ _ => some "x")
      (by decide) (by decide) (by decide)).2 (by decide)).2.1⟩

/-- Claim C1 (amended): a stepped assistant turn is authored by the slot
picked from the parity of the TOTAL assistant-turn count of the whole
transcript — A when even, B when odd — not the count since
`round_start_index`; measured from `round_start_index`, the alternation
starts at A exactly when the assistant count up to and including
`round_start_index` is even (as on a fresh start or a resume after a
fully completed round, but not after an interrupt at an odd count). -/
theorem speaker_selection_total_parity (s : AppState)
    (oracle : String → String → Option String)
    (hdeb : s.is_debating = true)
    (hbud : turns_since_start s < max_turns s) :
    (∃ c : String, tr s (Action.step oracle) =
      { s with chat_history := s.chat_history ++ [⟨Role.assistant, speakerName s, c⟩] }) ∧
    next_slot s = some (if assistantCount s.chat_history % 2 = 0 then Slot.A else Slot.B) ∧
    speakerName s =
      (if assistantCount s.chat_history % 2 = 0 then s.persona_a.name else s.persona_b.name) ∧
    (assistantCount (s.chat_history.take (s.current_round_start + 1)) % 2 = 0 →
      (next_slot s = some Slot.A ↔
        assistantCount (s.chat_history.drop (s.current_round_start + 1)) % 2 = 0)) := by
  have hnext : next_slot s =
      some (if assistantCount s.chat_history % 2 = 0 then Slot.A else Slot.B) := by
    unfold next_slot
    rw [if_pos hdeb, if_pos hbud]
  refine ⟨⟨generate_response (speakerPersona s) (speakerModel s)
      s.chat_history (last_content s) oracle, ?_⟩, hnext, rfl, ?_⟩
  · show doStep s oracle = _
    unfold doStep
    rw [if_pos hdeb, if_pos hbud]
  · intro hpre
    have hsplit : assistantCount s.chat_history =
        assistantCount (s.chat_history.take (s.current_round_start + 1)) +
        assistantCount (s.chat_history.drop (s.current_round_start + 1)) := by
      conv_lhs => rw [← List.take_append_drop (s.current_round_start + 1) s.chat_history]
      exact assistantCount_append _ _
    rw [hnext]
    by_cases hp : assistantCount s.chat_history % 2 = 0
    · rw [if_pos hp]
      exact ⟨fun _ => by omega, fun _ => rfl⟩
    · rw [if_neg hp]
      constructor
      · intro hc; exact absurd hc (by decide)
      · intro hde; exact absurd (by omega : assistantCount s.chat_history % 2 = 0) hp

theorem speaker_selection_total_parity_witness :
    ((run init [Action.submitTopic "T"]).is_debating = true ∧
     turns_since_start (run init [Action.submitTopic "T"]) <
       max_turns (run init [Action.submitTopic "T"])) ∧
    next_slot (run init [Action.submitTopic "T"]) =
      some (if assistantCount (run init [Action.submitTopic "T"]).chat_history % 2 = 0
        then Slot.A else Slot.B) :=
  ⟨⟨by decide, by decide⟩,
   (speaker_selection_total_parity (run init [Action.submitTopic "T"])
     (fun _ _ => some "x") (by decide) (by decide)).2.1⟩

/-- Claim C1 counterexample: after start, one assistant turn, an
interrupt, and a resume, the assistant-turn count since the active
`round_start_index` is `0` (even) — the claim then requires next speaker
A — yet the scheduler (which counts assistant turns over the whole
transcript: one, odd) selects B. -/
theorem speaker_alternation_counterexample :
    turns_since_start (run init [Action.submitTopic "X",
      Action.step (fun _ _ => some "a1"), Action.interrupt, Action.resume "Y"]) = 0 ∧
    assistantCount ((run init [Action.submitTopic "X",
      Action.step (fun _ _ => some "a1"), Action.interrupt,
      Action.resume "Y"]).chat_history.drop
      ((run init [Action.submitTopic "X", Action.step (fun _ _ => some "a1"),
        Action.interrupt, Action.resume "Y"]).current_round_start + 1)) = 0 ∧
    (run init [Action.submitTopic "X", Action.step (fun _ _ => some "a1"),
      Action.interrupt, Action.resume "Y"]).is_debating = true ∧
    next_slot (run init [Action.submitTopic "X", Action.step (fun _ _ => some "a1"),
      Action.interrupt, Action.resume "Y"]) = some Slot.B ∧
    decide (next_slot (run init [Action.submitTopic "X",
      Action.step (fun _ _ => some "a1"), Action.interrupt, Action.resume "Y"]) =
        some Slot.A) = false := by
  refine ⟨by decide, by decide, by decide, by decide, by decide⟩

/-- Claim C3 (amended): from Finished, `resume(opinion)` with a non-empty
opinion appends exactly one user turn, sets `round_start_index` to
`length - 1` (pointing at the appended opinion), re-enters Debating with
the round budget counted from the new `round_start_index` (count 0), and
retains all earlier turns for context windowing; alternation restarts at
A exactly when the total assistant count of the transcript is even (as
after a fully completed round) — after an interrupt at an odd count, B
opens instead. -/
theorem resume_appends_and_restarts (s : AppState) (op : String)
    (hfin : s.debate_finished = true) (hdeb : s.is_debating = false)
    (hop : op ≠ "") (hR : 1 ≤ s.max_rounds) :
    (tr s (Action.resume op)).chat_history =
      s.chat_history ++ [⟨Role.user, "観客", op⟩] ∧
    (tr s (Action.resume op)).chat_history.length = s.chat_history.length + 1 ∧
    (tr s (Action.resume op)).current_round_start =
      (tr s (Action.resume op)).chat_history.length - 1 ∧
    (tr s (Action.resume op)).current_round_start = s.chat_history.length ∧
    (tr s (Action.resume op)).is_debating = true ∧
    (tr s (Action.resume op)).debate_finished = false ∧
    turns_since_start (tr s (Action.resume op)) = 0 ∧
    (tr s (Action.resume op)).max_rounds = s.max_rounds ∧
    (tr s (Action.resume op)).chat_history.take s.chat_history.length = s.chat_history ∧
    (assistantCount s.chat_history % 2 = 0 →
      next_slot (tr s (Action.resume op)) = some Slot.A) := by
  have hres : tr s (Action.resume op) =
      { s with chat_history := s.chat_history ++ [(⟨Role.user, "観客", op⟩ : Turn)],
               current_round_start := s.chat_history.length,
               is_debating := true,
               debate_finished := false } := by
    show doResume s op = _
    unfold doResume
    rw [if_pos ⟨hfin, hdeb, hop⟩]
    simp
  have hlen2 : (tr s (Action.resume op)).chat_history.length =
      s.chat_history.length + 1 := by rw [hres]; simp
  have hrs2 : (tr s (Action.resume op)).current_round_start = s.chat_history.length := by
    rw [hres]
  have hR2 : (tr s (Action.resume op)).max_rounds = s.max_rounds := by rw [hres]
  have hdeb2 : (tr s (Action.resume op)).is_debating = true := by rw [hres]
  have hts0 : turns_since_start (tr s (Action.resume op)) = 0 := by
    unfold turns_since_start; rw [hlen2, hrs2]; omega
  have hbud : turns_since_start (tr s (Action.resume op)) <
      max_turns (tr s (Action.resume op)) := by
    rw [hts0]; unfold max_turns; rw [hR2]; omega
  have hac : assistantCount (tr s (Action.resume op)).chat_history =
      assistantCount s.chat_history := by
    rw [hres]
    show assistantCount (s.chat_history ++ [(⟨Role.user, "観客", op⟩ : Turn)]) = _
    rw [assistantCount_append]
    rfl
  refine ⟨by rw [hres], hlen2, ?_, hrs2, hdeb2, by rw [hres], hts0, hR2, ?_, ?_⟩
  · rw [hlen2, hrs2]; omega
  · rw [hres]
    show (s.chat_history ++ [(⟨Role.user, "観客", op⟩ : Turn)]).take
      s.chat_history.length = s.chat_history
    exact List.take_left s.chat_history _
  · intro hpar
    unfold next_slot
    rw [if_pos hdeb2, if_pos hbud, hac, if_pos hpar]

theorem resume_appends_and_restarts_witness :
    ((run init [Action.submitTopic "X", Action.step (fun _ _ => some "a1"),
        Action.interrupt]).debate_finished = true ∧
     (run init [Action.submitTopic "X", Action.step (fun _ _ => some "a1"),
        Action.interrupt]).is_debating = false ∧
     "Y" ≠ "" ∧
     1 ≤ (run init [Action.submitTopic "X", Action.step (fun _ _ => some "a1"),
        Action.interrupt]).max_rounds) ∧
    (tr (run init [Action.submitTopic "X", Action.step (fun _ _ => some "a1"),
        Action.interrupt]) (Action.resume "Y")).is_debating = true :=
  ⟨⟨by decide, by decide, by decide, by decide⟩,
   (resume_appends_and_restarts
     (run init [Action.submitTopic "X", Action.step (fun _ _ => some "a1"),
        Action.interrupt]) "Y" (by decide) (by decide) (by decide)
     (by decide)).2.2.2.2.1⟩

/-- Claim C3 counterexample: resuming from the Finished state reached by
an interrupt after one assistant turn does NOT restart alternation at A:
the scheduler of the resumed round selects B (the total assistant count,
one, is odd), although the claim requires A. -/
theorem resume_restart_counterexample :
    (run init [Action.submitTopic "X", Action.step (fun _ _ => some "a1"),
      Action.interrupt]).debate_finished = true ∧
    (run init [Action.submitTopic "X", Action.step (fun _ _ => some "a1"),
      Action.interrupt]).is_debating = false ∧
    next_slot (tr (run init [Action.submitTopic "X",
      Action.step (fun _ _ => some "a1"), Action.interrupt]) (Action.resume "Y")) =
      some Slot.B ∧
    decide (next_slot (tr (run init [Action.submitTopic "X",
      Action.step (fun _ _ => some "a1"), Action.interrupt]) (Action.resume "Y")) =
        some Slot.A) = false := by
  refine ⟨by decide, by decide, by decide, by decide⟩

/-- Actions that neither resume nor restart a debate: auto-steps, the
interrupt button, persona edits and the rounds slider. From a Finished
state, none of them appends a turn (no generation call occurs). -/
def NonRestartAct : Action → Prop
  | Action.submitTopic _ => False
  | Action.resume _ => False
  | Action.newTopic => False
  | _ => True

theorem finished_frozen_tr (s : AppState) (a : Action)
    (hfin : s.debate_finished = true) (hdeb : s.is_debating = false)
    (ha : NonRestartAct a) :
    (tr s a).chat_history = s.chat_history ∧
    (tr s a).debate_finished = true ∧ (tr s a).is_debating = false := by
  cases a with
  | submitTopic t => exact absurd ha (by simp [NonRestartAct])
  | resume op => exact absurd ha (by simp [NonRestartAct])
  | newTopic => exact absurd ha (by simp [NonRestartAct])
  | step o =>
    simp only [tr]
    unfold doStep
    rw [if_neg (by simp [hdeb])]
    exact ⟨rfl, hfin, hdeb⟩
  | interrupt =>
    simp only [tr]
    unfold doInterrupt
    rw [if_neg (by simp [hdeb])]
    exact ⟨rfl, hfin, hdeb⟩
  | editPersona slot n t m => cases slot <;> exact ⟨rfl, hfin, hdeb⟩
  | resetPersona slot => cases slot <;> exact ⟨rfl, hfin, hdeb⟩
  | setMaxRounds n =>
    simp only [tr]
    unfold doSetMaxRounds
    split <;> exact ⟨rfl, hfin, hdeb⟩

theorem finished_frozen_run (acts : List Action) :
    ∀ s : AppState, s.debate_finished = true → s.is_debating = false →
    (∀ a ∈ acts, NonRestartAct a) →
    (run s acts).chat_history = s.chat_history ∧
    (run s acts).debate_finished = true ∧ (run s acts).is_debating = false := by
  induction acts with
  | nil => intro s hfin hdeb _; exact ⟨rfl, hfin, hdeb⟩
  | cons a l ih =>
    intro s hfin hdeb hall
    obtain ⟨h1, h2, h3⟩ := finished_frozen_tr s a hfin hdeb (hall a (by simp))
    obtain ⟨g1, g2, g3⟩ := ih (tr s a) h2 h3 (fun x hx => hall x (by simp [hx]))
    exact ⟨by rw [run_cons, g1, h1], by rw [run_cons]; exact g2, by rw [run_cons]; exact g3⟩

/-- Claim C4: interrupting a debate after `k < 2 * max_rounds` assistant
turns in the current round transitions Debating to Finished with the
transcript (and its `k` assistant turns) unchanged, and from that
Finished state no action other than a resume or new-topic (or new-start)
ever changes the transcript — in particular no generation call occurs. -/
theorem interrupt_freezes_transcript (s : AppState) (k : Nat)
    (hdeb : s.is_debating = true)
    (hk : assistantCount (s.chat_history.drop (s.current_round_start + 1)) = k)
    (_hklt : k < 2 * s.max_rounds) :
    (tr s Action.interrupt).chat_history = s.chat_history ∧
    (tr s Action.interrupt).is_debating = false ∧
    (tr s Action.interrupt).debate_finished = true ∧
    assistantCount ((tr s Action.interrupt).chat_history.drop
      ((tr s Action.interrupt).current_round_start + 1)) = k ∧
    (∀ acts, (∀ a ∈ acts, NonRestartAct a) →
      (run (tr s Action.interrupt) acts).chat_history = s.chat_history ∧
      (run (tr s Action.interrupt) acts).debate_finished = true ∧
      (run (tr s Action.interrupt) acts).is_debating = false) := by
  have hint : tr s Action.interrupt =
      { s with is_debating := false, debate_finished := true } := by
    show doInterrupt s = _
    unfold doInterrupt
    rw [if_pos hdeb]
  refine ⟨by rw [hint], by rw [hint], by rw [hint], by rw [hint]; exact hk, ?_⟩
  intro acts hall
  obtain ⟨g1, g2, g3⟩ := finished_frozen_run acts (tr s Action.interrupt)
    (by rw [hint]) (by rw [hint]) hall
  exact ⟨by rw [g1, hint], g2, g3⟩

theorem interrupt_freezes_transcript_witness :
    ((run init [Action.submitTopic "X", Action.step (fun _ _ => some "a1")]).is_debating
        = true ∧
     assistantCount ((run init [Action.submitTopic "X",
        Action.step (fun _ _ => some "a1")]).chat_history.drop
        ((run init [Action.submitTopic "X",
          Action.step (fun _ _ => some "a1")]).current_round_start + 1)) = 1 ∧
     1 < 2 * (run init [Action.submitTopic "X",
        Action.step (fun _ _ => some "a1")]).max_rounds) ∧
    (tr (run init [Action.submitTopic "X", Action.step (fun _ _ => some "a1")])
      Action.interrupt).debate_finished = true :=
  ⟨⟨by decide, by decide, by decide⟩,
   (interrupt_freezes_transcript
     (run init [Action.submitTopic "X", Action.step (fun _ _ => some "a1")]) 1
     (by decide) (by decide) (by decide)).2.2.1⟩

/-- Claim C5: when the generation backend fails (the oracle returns
`none`), `generate_response` catches the failure at the call site and the
step appends a turn whose content is the fixed sentinel text; the
sentinel turn counts toward the round budget (`turns_since_start`
advances by one) and toward alternation (the total assistant count
advances by one, so the next selection, if any, is the other slot) — the
debate neither stalls nor aborts. -/
theorem generation_failure_sentinel (s : AppState)
    (oracle : String → String → Option String)
    (hdeb : s.is_debating = true)
    (hbud : turns_since_start s < max_turns s)
    (hfail : ∀ m p, oracle m p = none) :
    (tr s (Action.step oracle)).chat_history =
      s.chat_history ++ [⟨Role.assistant, speakerName s, sentinelText⟩] ∧
    assistantCount (tr s (Action.step oracle)).chat_history =
      assistantCount s.chat_history + 1 ∧
    turns_since_start (tr s (Action.step oracle)) = turns_since_start s + 1 ∧
    (tr s (Action.step oracle)).is_debating = true ∧
    (tr s (Action.step oracle)).current_round_start = s.current_round_start ∧
    (turns_since_start (tr s (Action.step oracle)) <
        max_turns (tr s (Action.step oracle)) →
      next_slot (tr s (Action.step oracle)) =
        some (if assistantCount s.chat_history % 2 = 0 then Slot.B else Slot.A)) := by
  have hgen : generate_response (speakerPersona s) (speakerModel s)
      s.chat_history (last_content s) oracle = sentinelText := by
    unfold generate_response
    rw [hfail]
  have hstep : tr s (Action.step oracle) =
      { s with chat_history := s.chat_history ++
        [⟨Role.assistant, speakerName s, sentinelText⟩] } := by
    show doStep s oracle = _
    unfold doStep
    rw [if_pos hdeb, if_pos hbud, hgen]
  have hac : assistantCount (s.chat_history ++
      [(⟨Role.assistant, speakerName s, sentinelText⟩ : Turn)]) =
      assistantCount s.chat_history + 1 := by
    rw [assistantCount_append]; rfl
  refine ⟨by rw [hstep], by rw [hstep]; exact hac, ?_, by rw [hstep]; exact hdeb,
    by rw [hstep], ?_⟩
  · rw [hstep]; unfold turns_since_start
    show ((s.chat_history ++ [_]).length : Int) - 1 - (s.current_round_start : Int) = _
    simp [List.length_append]; omega
  · intro hbud'
    have hdeb2 : (tr s (Action.step oracle)).is_debating = true := by
      rw [hstep]; exact hdeb
    rw [next_slot_pos _ hdeb2 hbud']
    have hac2 : assistantCount (tr s (Action.step oracle)).chat_history =
        assistantCount s.chat_history + 1 := by rw [hstep]; exact hac
    rw [hac2]
    by_cases hp : assistantCount s.chat_history % 2 = 0
    · rw [if_neg (by omega), if_pos hp]
    · rw [if_pos (by omega), if_neg hp]

theorem generation_failure_sentinel_witness :
    ((run init [Action.submitTopic "X"]).is_debating = true ∧
     turns_since_start (run init [Action.submitTopic "X"]) <
       max_turns (run init [Action.submitTopic "X"]) ∧
     (∀ m p : String, (fun _ _ => (none : Option String)) m p = none)) ∧
    (tr (run init [Action.submitTopic "X"]) (Action.step (fun _ _ => none))).chat_history =
      (run init [Action.submitTopic "X"]).chat_history ++
        [⟨Role.assistant, speakerName (run init [Action.submitTopic "X"]), sentinelText⟩] :=
  ⟨⟨by decide, by decide, fun _ _ => rfl⟩,
   (generation_failure_sentinel (run init [Action.submitTopic "X"])
     (fun _ _ => none) (by decide) (by decide) (fun _ _ => rfl)).1⟩

/-- Claim C6: the context handed to the generator is `history[-6:]` — the
last 6 turns, or all of them when the transcript is shorter — kept in
original insertion order (it is the final contiguous segment of the
transcript), never more than 6 turns, each rendered as
`"{speaker_name}: {content}"` followed by a newline. -/
theorem context_window_spec (h : List Turn) :
    (context_window h).length = min h.length 6 ∧
    (context_window h).length ≤ 6 ∧
    (h.length ≤ 6 → context_window h = h) ∧
    h.take (h.length - 6) ++ context_window h = h ∧
    (∀ m : Turn, render_turn m = m.name ++ ": " ++ m.content) ∧
    context_str h = (context_window h).foldl
      (fun acc m => acc ++ render_turn m ++ "\n") "" := by
  refine ⟨?_, ?_, ?_, ?_, fun _ => rfl, rfl⟩
  · unfold context_window
    rw [List.length_drop]
    omega
  · unfold context_window
    rw [List.length_drop]
    omega
  · intro hle
    unfold context_window
    have h0 : h.length - 6 = 0 := by omega
    rw [h0, List.drop_zero]
  · unfold context_window
    exact List.take_append_drop _ h

theorem context_window_spec_witness :
    (run init [Action.submitTopic "T"]).chat_history.length ≤ 6 ∧
    context_window (run init [Action.submitTopic "T"]).chat_history =
      (run init [Action.submitTopic "T"]).chat_history :=
  ⟨by decide, (context_window_spec (run init [Action.submitTopic "T"]).chat_history).2.2.1
    (by decide)⟩

/-- Claim C7: an empty topic submitted from Idle, and an empty opinion on
resume from Finished, are no-ops — the whole session state (transcript,
`round_start_index`, lifecycle flags, configuration) is unchanged and no
generation call occurs (the transition returns the state itself). -/
theorem empty_input_noop (s : AppState) :
    (s.is_debating = false → s.debate_finished = false →
      tr s (Action.submitTopic "") = s) ∧
    (s.debate_finished = true → s.is_debating = false →
      tr s (Action.resume "") = s) := by
  constructor
  · intro _ _
    show doSubmitTopic s "" = s
    unfold doSubmitTopic
    rw [if_neg (by simp)]
  · intro _ _
    show doResume s "" = s
    unfold doResume
    rw [if_neg (by simp)]

theorem empty_input_noop_witness :
    (init.is_debating = false ∧ init.debate_finished = false ∧
      tr init (Action.submitTopic "") = init) ∧
    ((run init [Action.submitTopic "T", Action.interrupt]).debate_finished = true ∧
      (run init [Action.submitTopic "T", Action.interrupt]).is_debating = false ∧
      tr (run init [Action.submitTopic "T", Action.interrupt]) (Action.resume "") =
        run init [Action.submitTopic "T", Action.interrupt]) :=
  ⟨⟨rfl, rfl, (empty_input_noop init).1 rfl rfl⟩,
   ⟨by decide, by decide,
    (empty_input_noop (run init [Action.submitTopic "T", Action.interrupt])).2
      (by decide) (by decide)⟩⟩

/-- The scheduling view of a state: everything the turn scheduler and the
lifecycle guards can observe — the roles of the transcript (not the names
or contents), the two lifecycle flags, `current_round_start` and
`max_rounds`. Persona configuration is deliberately absent. -/
def proj (s : AppState) : List Role × Bool × Bool × Nat × Nat :=
  (s.chat_history.map Turn.role, s.is_debating, s.debate_finished,
    s.current_round_start, s.max_rounds)

/-- Persona-editing actions (save or reset on `page_persona`). -/
def isPersonaEdit : Action → Bool
  | Action.editPersona _ _ _ _ => true
  | Action.resetPersona _ => true
  | _ => false

/-- Erase the persona edits from an action sequence. -/
def dropPersona (acts : List Action) : List Action :=
  acts.filter (fun a => !isPersonaEdit a)

theorem assistantCount_eq_of_roles (h₁ h₂ : List Turn)
    (hr : h₁.map Turn.role = h₂.map Turn.role) :
    assistantCount h₁ = assistantCount h₂ := by
  unfold assistantCount
  rw [← List.countP_eq_length_filter, ← List.countP_eq_length_filter]
  have hc := congrArg (List.countP (fun r => r == Role.assistant)) hr
  rwa [List.countP_map, List.countP_map] at hc

theorem next_slot_proj (s s' : AppState) (hp : proj s = proj s') :
    next_slot s = next_slot s' := by
  have hcomp := hp
  simp only [proj, Prod.mk.injEq] at hcomp
  obtain ⟨hroles, hdeb, hfin, hrs, hR⟩ := hcomp
  have hlen : s.chat_history.length = s'.chat_history.length := by
    have := congrArg List.length hroles
    simpa using this
  have hac : assistantCount s.chat_history = assistantCount s'.chat_history :=
    assistantCount_eq_of_roles _ _ hroles
  unfold next_slot turns_since_start max_turns
  rw [hdeb, hlen, hrs, hR, hac]

theorem personaEdit_neutral (s : AppState) (a : Action) (ha : isPersonaEdit a = true) :
    (tr s a).chat_history = s.chat_history ∧ proj (tr s a) = proj s := by
  cases a with
  | editPersona slot n t m => cases slot <;> exact ⟨rfl, rfl⟩
  | resetPersona slot => cases slot <;> exact ⟨rfl, rfl⟩
  | submitTopic t => simp [isPersonaEdit] at ha
  | step o => simp [isPersonaEdit] at ha
  | interrupt => simp [isPersonaEdit] at ha
  | resume op => simp [isPersonaEdit] at ha
  | newTopic => simp [isPersonaEdit] at ha
  | setMaxRounds n => simp [isPersonaEdit] at ha

theorem proj_tr (s s' : AppState) (a : Action) (hp : proj s = proj s') :
    proj (tr s a) = proj (tr s' a) := by
  have hcomp := hp
  simp only [proj, Prod.mk.injEq] at hcomp
  obtain ⟨hroles, hdeb, hfin, hrs, hR⟩ := hcomp
  have hlen : s.chat_history.length = s'.chat_history.length := by
    have := congrArg List.length hroles
    simpa using this
  have hac : assistantCount s.chat_history = assistantCount s'.chat_history :=
    assistantCount_eq_of_roles _ _ hroles
  cases a with
  | submitTopic t =>
    show proj (doSubmitTopic s t) = proj (doSubmitTopic s' t)
    unfold doSubmitTopic
    by_cases hc : s'.is_debating = false ∧ s'.debate_finished = false ∧ t ≠ ""
    · rw [if_pos hc, if_pos (by rw [hdeb, hfin]; exact hc)]
      simp [proj, hR]
    · rw [if_neg hc, if_neg (by rw [hdeb, hfin]; exact hc)]
      exact hp
  | step o =>
    show proj (doStep s o) = proj (doStep s' o)
    unfold doStep
    by_cases hc : s'.is_debating = true
    · rw [if_pos hc, if_pos (by rw [hdeb]; exact hc)]
      by_cases hb : turns_since_start s' < max_turns s'
      · have hb₁ : turns_since_start s < max_turns s := by
          unfold turns_since_start max_turns
          rw [hlen, hrs, hR]
          exact hb
        rw [if_pos hb, if_pos hb₁]
        simp [proj, hroles, hdeb, hfin, hrs, hR]
      · have hb₁ : ¬ turns_since_start s < max_turns s := by
          unfold turns_since_start max_turns
          rw [hlen, hrs, hR]
          exact hb
        rw [if_neg hb, if_neg hb₁]
        simp [proj, hroles, hrs, hR]
    · rw [if_neg hc, if_neg (by rw [hdeb]; exact hc)]
      exact hp
  | interrupt =>
    show proj (doInterrupt s) = proj (doInterrupt s')
    unfold doInterrupt
    by_cases hc : s'.is_debating = true
    · rw [if_pos hc, if_pos (by rw [hdeb]; exact hc)]
      simp [proj, hroles, hrs, hR]
    · rw [if_neg hc, if_neg (by rw [hdeb]; exact hc)]
      exact hp
  | resume op =>
    show proj (doResume s op) = proj (doResume s' op)
    unfold doResume
    by_cases hc : s'.debate_finished = true ∧ s'.is_debating = false ∧ op ≠ ""
    · rw [if_pos hc, if_pos (by rw [hdeb, hfin]; exact hc)]
      simp [proj, hroles, hlen, hR]
    · rw [if_neg hc, if_neg (by rw [hdeb, hfin]; exact hc)]
      exact hp
  | newTopic =>
    show proj (doNewTopic s) = proj (doNewTopic s')
    unfold doNewTopic
    by_cases hc : s'.debate_finished = true ∧ s'.is_debating = false
    · rw [if_pos hc, if_pos (by rw [hdeb, hfin]; exact hc)]
      simp [proj, hdeb, hR]
    · rw [if_neg hc, if_neg (by rw [hdeb, hfin]; exact hc)]
      exact hp
  | editPersona slot n t m =>
    cases slot <;> exact hp
  | resetPersona slot =>
    cases slot <;> exact hp
  | setMaxRounds n =>
    show proj (doSetMaxRounds s n) = proj (doSetMaxRounds s' n)
    unfold doSetMaxRounds
    by_cases hc : 1 ≤ n ∧ n ≤ 10
    · rw [if_pos hc, if_pos hc]
      simp [proj, hroles, hdeb, hfin, hrs]
    · rw [if_neg hc, if_neg hc]
      exact hp

theorem proj_run (acts : List Action) :
    ∀ s s' : AppState, proj s = proj s' →
    proj (run s acts) = proj (run s' acts) := by
  induction acts with
  | nil => intro s s' hp; exact hp
  | cons a l ih =>
    intro s s' hp
    rw [run_cons, run_cons]
    exact ih (tr s a) (tr s' a) (proj_tr s s' a hp)

theorem run_dropPersona (acts : List Action) :
    ∀ s s' : AppState, proj s = proj s' →
    proj (run s acts) = proj (run s' (dropPersona acts)) := by
  induction acts with
  | nil => intro s s' hp; exact hp
  | cons a l ih =>
    intro s s' hp
    by_cases ha : isPersonaEdit a = true
    · have hd : dropPersona (a :: l) = dropPersona l := by
        simp [dropPersona, ha]
      rw [run_cons, hd]
      exact ih (tr s a) s' (by rw [(personaEdit_neutral s a ha).2]; exact hp)
    · have hd : dropPersona (a :: l) = a :: dropPersona l := by
        simp [dropPersona, ha]
      rw [run_cons, hd, run_cons]
      exact ih (tr s a) (tr s' a) (proj_tr s s' a hp)

/-- Claim C10: scheduling does not depend on persona configuration. For
two runs whose action sequences agree after erasing persona edits,
started from states with the same scheduling view (same transcript roles,
flags, `current_round_start`, `max_rounds`), the scheduling view and the
next-speaker choice agree at the end (and hence, applying this to every
prefix, the A/B choice and the round-termination points agree at every
step); moreover a persona edit or reset never changes the transcript —
turns already generated keep their recorded names. -/
theorem scheduling_persona_noninterference (s s' : AppState)
    (acts acts' : List Action)
    (hp : proj s = proj s') (hd : dropPersona acts = dropPersona acts') :
    proj (run s acts) = proj (run s' acts') ∧
    next_slot (run s acts) = next_slot (run s' acts') ∧
    (∀ slot n t m, (tr s (Action.editPersona slot n t m)).chat_history = s.chat_history ∧
      (tr s (Action.resetPersona slot)).chat_history = s.chat_history) := by
  have h1 : proj (run s acts) = proj (run s' (dropPersona acts)) :=
    run_dropPersona acts s s' hp
  have h2 : proj (run s' acts') = proj (run s' (dropPersona acts')) :=
    run_dropPersona acts' s' s' rfl
  have h3 : proj (run s acts) = proj (run s' acts') := by
    rw [h1, hd, ← h2]
  refine ⟨h3, next_slot_proj _ _ h3, fun slot n t m => ?_⟩
  exact ⟨(personaEdit_neutral s (Action.editPersona slot n t m) rfl).1,
    (personaEdit_neutral s (Action.resetPersona slot) rfl).1⟩

theorem scheduling_persona_noninterference_witness :
    (proj init = proj { init with persona_a := ⟨"別名", "別プロンプト", "Gemini 2.5 Pro"⟩ } ∧
     dropPersona [Action.editPersona Slot.A "N" "P" "M", Action.submitTopic "T",
        Action.step (fun _ _ => some "x")] =
       dropPersona [Action.submitTopic "T", Action.step (fun _ _ => some "x")]) ∧
    next_slot (run init [Action.editPersona Slot.A "N" "P" "M", Action.submitTopic "T",
        Action.step (fun _ _ => some "x")]) =
      next_slot (run { init with persona_a := ⟨"別名", "別プロンプト", "Gemini 2.5 Pro"⟩ }
        [Action.submitTopic "T", Action.step (fun _ _ => some "x")]) :=
  ⟨⟨rfl, rfl⟩,
   (scheduling_persona_noninterference init
     { init with persona_a := ⟨"別名", "別プロンプト", "Gemini 2.5 Pro"⟩ }
     [Action.editPersona Slot.A "N" "P" "M", Action.submitTopic "T",
        Action.step (fun _ _ => some "x")]
     [Action.submitTopic "T", Action.step (fun _ _ => some "x")]
     rfl rfl).2.1⟩

end GeminiTalk
